/-
Verification of the go-rawurlparser URL decomposition library.

Shallow embedding of the Go sources:
  * url.go              : RawURL, ParseOptions, RawURLParseWithOptions,
                          RawURLParse, RawURLParseStrict, String()
  * helpers (current)   : URLComponent constants, UpdateRawURL, GetRawPath,
                          GetRawRequestURI, GetHostname, GetPort,
                          GetRawQueryValues, GetAuthority, SplitHostPort,
                          validOptionalPort

Go strings are modelled as lists of characters (`Str`).  All delimiters the
parser searches for are single ASCII bytes (or the three-byte "://"), and in
UTF-8 an ASCII byte never occurs inside a multi-byte character, so byte
indices in the Go code correspond exactly to positions in the character
list.  Go's `strings.Index` convention `-1` / index is modelled by
`Option Nat`.  Go's `nil` pointers (`*Userinfo`, `*ParseOptions`) are
modelled by `Option`.  The fallible parser returns `Except ParseError`.
-/
import Mathlib

namespace Rawurlparser

/-- Go strings, as lists of characters (byte-faithful for ASCII delimiters). -/
abbrev Str := List Char

/-- `strings.Index(s, sub)`: index of the first occurrence of `sub` in `s`,
`none` for Go's `-1`.  `Index(s, "") = 0`. -/
def strIndex : Str → Str → Option Nat
  | [], sub => if sub = [] then some 0 else none
  | c :: rest, sub =>
    if sub.isPrefixOf (c :: rest) then some 0
    else (strIndex rest sub).map (· + 1)

/-- `strings.LastIndex(s, sub)`: index of the last occurrence of `sub` in `s`. -/
def strLastIndex : Str → Str → Option Nat
  | [], sub => if sub = [] then some 0 else none
  | c :: rest, sub =>
    match strLastIndex rest sub with
    | some j => some (j + 1)
    | none => if sub.isPrefixOf (c :: rest) then some 0 else none

/-- `strings.Contains(s, sub)`. -/
def strContains (s sub : Str) : Bool :=
  (strIndex s sub).isSome

/-- The "://" scheme separator. -/
def schemeSep : Str := [':', '/', '/']

/-- Userinfo stores username and password info (url.go). -/
structure Userinfo where
  username : Str
  password : Str
  passwordSet : Bool
deriving DecidableEq, Repr

/-- RawURL represents a raw URL with no normalization or encoding (url.go). -/
structure RawURL where
  Original : Str
  Scheme : Str
  Opaque : Str
  User : Option Userinfo
  Host : Str
  Hostname : Str
  Port : Str
  Path : Str
  Query : Str
  Fragment : Str
  RawRequestURI : Str
deriving DecidableEq, Repr

/-- ParseOptions contains configuration options for URL parsing (url.go). -/
structure ParseOptions where
  FallbackScheme : Str
  AllowMissingScheme : Bool
deriving DecidableEq, Repr

/-- DefaultOptions returns the default parsing options (url.go). -/
def DefaultOptions : ParseOptions :=
  { FallbackScheme := ("https").toList, AllowMissingScheme := true }

/-- The error values returned by the parser (url.go: ErrEmptyURL, ErrInvalidURL). -/
inductive ParseError where
  | ErrEmptyURL
  | ErrInvalidURL
deriving DecidableEq, Repr

deriving instance DecidableEq for Except

/-- A RawURL with every field at its Go zero value. -/
def emptyRawURL : RawURL :=
  { Original := [], Scheme := [], Opaque := [], User := none, Host := [],
    Hostname := [], Port := [], Path := [], Query := [], Fragment := [],
    RawRequestURI := [] }

/-- url.go lines 87-90: the scheme used when no delimiter is found —
`opts.FallbackScheme` when `opts != nil && opts.AllowMissingScheme`, else
the zero value `""`. -/
def missingScheme (opts : Option ParseOptions) : Str :=
  match opts with
  | some o => if o.AllowMissingScheme then o.FallbackScheme else []
  | none => []

/-- url.go lines 93-101: split authority from path at the first `/`;
when no `/` is found the whole remainder is the authority and the
remaining path text is forced to "/". -/
def splitAuthorityPath (remaining : Str) : Str × Str :=
  match strIndex remaining ['/'] with
  | some pathStart => (remaining.take pathStart, remaining.drop pathStart)
  | none => (remaining, ['/'])

/-- url.go lines 103-116: split userinfo (before the first `@`) from the
host part; inside userinfo the first `:` splits username/password and sets
`passwordSet`. -/
def parseUserinfo (authority : Str) : Option Userinfo × Str :=
  match strIndex authority ['@'] with
  | some atIndex =>
    let userinfo := authority.take atIndex
    (some (match strIndex userinfo [':'] with
           | some ci => ⟨userinfo.take ci, userinfo.drop (ci + 1), true⟩
           | none => ⟨userinfo, [], false⟩),
     authority.drop (atIndex + 1))
  | none => (none, authority)

/-- The host part of an authority substring: what is left after the
userinfo split (url.go line 106 / line 136). -/
def hostPartOf (authority : Str) : Str :=
  (parseUserinfo authority).2

/-- url.go lines 118-137: IPv6 handling for `result.Host`.  A `[`-prefixed
authority with no `]` is an error; otherwise the host is cut after `]`
unless a `:` (port) follows directly, in which case the whole authority is
kept. -/
def hostOf (authority : Str) : Except ParseError Str :=
  if ['['].isPrefixOf authority then
    match strLastIndex authority [']'] with
    | none => .error .ErrInvalidURL
    | some cb =>
      if cb + 1 < authority.length ∧ authority.get? (cb + 1) = some ':' then
        .ok authority
      else
        .ok (authority.take (cb + 1))
  else .ok authority

/-- validOptionalPort reports whether port is empty or `:` followed by
digits only (helpers, part_010). -/
def validOptionalPort (port : Str) : Bool :=
  match port with
  | [] => true
  | c :: rest => decide (c = ':') && rest.all (fun b => decide ('0' ≤ b) && decide (b ≤ '9'))

/-- The regular `host:port` split at the last `:`, used by SplitHostPort
when the input is not a well-bracketed IPv6 literal (helpers, part_010). -/
def splitRegularHostPort (hostPort : Str) : Str × Str :=
  match strLastIndex hostPort [':'] with
  | some colon =>
    if validOptionalPort (hostPort.drop colon) then
      (hostPort.take colon, hostPort.drop (colon + 1))
    else (hostPort, [])
  | none => (hostPort, [])

/-- SplitHostPort separates host and port, stripping the brackets of an
IPv6 literal from the host (helpers, part_010 lines 939-961). -/
def SplitHostPort (hostPort : Str) : Str × Str :=
  if ['['].isPrefixOf hostPort then
    match strIndex hostPort [']'] with
    | some cb =>
      ((hostPort.drop 1).take (cb - 1),
       if cb + 1 < hostPort.length ∧ hostPort.get? (cb + 1) = some ':' then
         hostPort.drop (cb + 2)
       else [])
    | none => splitRegularHostPort hostPort
  else splitRegularHostPort hostPort

/-- url.go lines 139-158: derive the Hostname and Port fields from Host.
For a bracketed host the brackets are preserved in the hostname
("Preserve brackets" comment); otherwise SplitHostPort is used. -/
def splitHostnamePort (host : Str) : Str × Str :=
  if host = [] then ([], [])
  else if ['['].isPrefixOf host then
    match strLastIndex host [']'] with
    | some cb =>
      (host.take (cb + 1),
       if cb + 1 < host.length ∧ host.get? (cb + 1) = some ':' then
         host.drop (cb + 2)
       else [])
    | none => (host, [])
  else SplitHostPort host

/-- url.go lines 160-179: extract fragment (first `#`), then query
(first `?`), the rest is the path; the `len(remaining) == 0` else-branch
forces "/". Returns (path, query, fragment). -/
def extractPQF (remaining : Str) : Str × Str × Str :=
  if remaining.length > 0 then
    let fr := match strIndex remaining ['#'] with
      | some h => (remaining.take h, remaining.drop (h + 1))
      | none => (remaining, [])
    let qr := match strIndex fr.1 ['?'] with
      | some q => ((fr.1).take q, (fr.1).drop (q + 1))
      | none => (fr.1, [])
    (qr.1, qr.2, fr.2)
  else (['/'], [], [])

/-- url.go lines 181-188: RawRequestURI = path + "?"+query (if non-empty)
+ "#"+fragment (if non-empty). -/
def buildRawRequestURI (path query fragment : Str) : Str :=
  path ++ (if query = [] then [] else '?' :: query)
       ++ (if fragment = [] then [] else '#' :: fragment)

/-- url.go lines 93-190: the hierarchical part of the parse, run after the
scheme has been handled, on the remaining text. -/
def parseAfterScheme (original scheme remaining : Str) : Except ParseError RawURL :=
  match hostOf (parseUserinfo (splitAuthorityPath remaining).1).2 with
  | .error e => .error e
  | .ok host =>
    .ok { Original := original
          Scheme := scheme
          Opaque := []
          User := (parseUserinfo (splitAuthorityPath remaining).1).1
          Host := host
          Hostname := (splitHostnamePort host).1
          Port := (splitHostnamePort host).2
          Path := (extractPQF (splitAuthorityPath remaining).2).1
          Query := (extractPQF (splitAuthorityPath remaining).2).2.1
          Fragment := (extractPQF (splitAuthorityPath remaining).2).2.2
          RawRequestURI := buildRawRequestURI
            (extractPQF (splitAuthorityPath remaining).2).1
            (extractPQF (splitAuthorityPath remaining).2).2.1
            (extractPQF (splitAuthorityPath remaining).2).2.2 }

/-- RawURLParseWithOptions parses URL with custom options
(url.go lines 60-191). -/
def RawURLParseWithOptions (rawURL : Str) (opts : Option ParseOptions) :
    Except ParseError RawURL :=
  if rawURL.length = 0 then .error .ErrEmptyURL
  else
    match strIndex rawURL schemeSep with
    | some schemeEnd =>
      parseAfterScheme rawURL (rawURL.take schemeEnd) (rawURL.drop (schemeEnd + 3))
    | none =>
      match strIndex rawURL [':'] with
      | some colonIndex =>
        if strContains (rawURL.take colonIndex) ['/'] = false ∧
           strContains (rawURL.take colonIndex) ['.'] = false then
          .ok { emptyRawURL with
                Original := rawURL
                Scheme := rawURL.take colonIndex
                Opaque := rawURL.drop (colonIndex + 1) }
        else parseAfterScheme rawURL (missingScheme opts) rawURL
      | none => parseAfterScheme rawURL (missingScheme opts) rawURL

/-- RawURLParse parses URL with default options (url.go). -/
def RawURLParse (rawURL : Str) : Except ParseError RawURL :=
  RawURLParseWithOptions rawURL (some DefaultOptions)

/-- RawURLParseStrict parses URL without fallback scheme (url.go). -/
def RawURLParseStrict (rawURL : Str) : Except ParseError RawURL :=
  RawURLParseWithOptions rawURL none

/-- GetAuthority reconstructs the authority: userinfo (with `:password`
when `passwordSet`) then `@`, then Host (helpers, part_010). -/
def GetAuthority (u : RawURL) : Str :=
  (match u.User with
   | some ui => ui.username ++ (if ui.passwordSet then ':' :: ui.password else []) ++ ['@']
   | none => []) ++ u.Host

/-- String() reconstructs the full URL from its components
(url.go lines 273-301). -/
def RawURL.String (u : RawURL) : Str :=
  (if u.Scheme = [] then [] else u.Scheme ++ schemeSep)
  ++ GetAuthority u
  ++ u.Path
  ++ (if u.Query = [] then [] else '?' :: u.Query)
  ++ (if u.Fragment = [] then [] else '#' :: u.Fragment)

/-- GetHostname: the hostname of the URL without port; brackets of an
IPv6 literal are kept (helpers, part_010 lines 121-137). -/
def GetHostname (u : RawURL) : Str :=
  if ['['].isPrefixOf u.Host then
    match strLastIndex u.Host [']'] with
    | some cb => u.Host.take (cb + 1)
    | none => u.Host
  else
    match strLastIndex u.Host [':'] with
    | some i => u.Host.take i
    | none => u.Host

/-- GetPort: the port of the URL — after `]:` for an IPv6 literal, after
the last `:` otherwise (helpers, part_010 lines 140-159). -/
def GetPort (u : RawURL) : Str :=
  if ['['].isPrefixOf u.Host then
    match strLastIndex u.Host [']'] with
    | some cb =>
      if cb + 1 < u.Host.length ∧ u.Host.get? (cb + 1) = some ':' then
        u.Host.drop (cb + 2)
      else []
    | none => []
  else
    match strLastIndex u.Host [':'] with
    | some i => u.Host.drop (i + 1)
    | none => []

/-- GetRawPath reconstructs the path: "/" when the stored path is empty,
a leading "/" prepended when missing (helpers, part_010 lines 162-175). -/
def GetRawPath (u : RawURL) : Str :=
  if u.Path = [] then ['/']
  else if u.Path.head? ≠ some '/' then '/' :: u.Path
  else u.Path

/-- GetRawRequestURI: the explicit RawRequestURI override when non-empty,
otherwise path + "?"+query + "#"+fragment (helpers, part_010 lines 280-305). -/
def GetRawRequestURI (u : RawURL) : Str :=
  if u.RawRequestURI ≠ [] then u.RawRequestURI
  else
    u.Path ++ (if u.Query = [] then [] else '?' :: u.Query)
           ++ (if u.Fragment = [] then [] else '#' :: u.Fragment)

/-- URLComponent is a Go `int`; the named constants (part_010 lines 13-26)
are modelled as the Nat values 0 through 8. -/
abbrev URLComponent := Nat

def URLComponent.Scheme : URLComponent := 0

def URLComponent.Username : URLComponent := 1

def URLComponent.Password : URLComponent := 2

def URLComponent.Host : URLComponent := 3

def URLComponent.Port : URLComponent := 4

def URLComponent.Path : URLComponent := 5

def URLComponent.Query : URLComponent := 6

def URLComponent.Fragment : URLComponent := 7

def URLComponent.RawURI : URLComponent := 8

/-- UpdateRawURL updates a specific component of the URL with a new value
(part_010 lines 324-366).  The Go `switch` has no `default` case: a tag
matching none of the constants leaves the receiver unchanged, and the
function has no error return. -/
def UpdateRawURL (u : RawURL) (component : URLComponent) (newValue : Str) : RawURL :=
  if component = URLComponent.Scheme then { u with Scheme := newValue }
  else if component = URLComponent.Username then
    match u.User with
    | none => { u with User := some ⟨newValue, [], false⟩ }
    | some ui => { u with User := some { ui with username := newValue } }
  else if component = URLComponent.Password then
    match u.User with
    | none => { u with User := some ⟨[], newValue, true⟩ }
    | some ui => { u with User := some { ui with password := newValue, passwordSet := true } }
  else if component = URLComponent.Host then
    -- Update host without affecting port
    if GetPort u = [] then { u with Host := newValue }
    else { u with Host := newValue ++ ':' :: GetPort u }
  else if component = URLComponent.Port then
    -- Update port without affecting host
    if newValue = [] then { u with Host := GetHostname u }
    else { u with Host := GetHostname u ++ ':' :: newValue }
  else if component = URLComponent.Path then
    { u with Path := newValue, RawRequestURI := [] }
  else if component = URLComponent.Query then
    { u with Query := newValue, RawRequestURI := [] }
  else if component = URLComponent.Fragment then
    { u with Fragment := newValue, RawRequestURI := [] }
  else if component = URLComponent.RawURI then
    { u with RawRequestURI := newValue }
  else u

/-- `strings.Split(s, sep)` for a single-character separator: the list of
(possibly empty) pieces between occurrences of `sep`. -/
def splitChar (sep : Char) : Str → List Str
  | [] => [[]]
  | c :: rest =>
    let r := splitChar sep rest
    if c = sep then [] :: r
    else (c :: r.headD []) :: r.tail

/-- One query pair, split at the first `=` (`strings.SplitN(pair, "=", 2)`):
a pair without `=` maps to the empty-string value. -/
def parsePair (pair : Str) : Str × Str :=
  match strIndex pair ['='] with
  | some i => (pair.take i, pair.drop (i + 1))
  | none => (pair, [])

/-- GetRawQueryValues (helpers.go lines 103-118): split the query on `&`,
skip empty pairs, split each pair at the first `=`.  The Go
`map[string][]string` (with per-key append order) is modelled as the
ordered list of (key, value) insertions. -/
def GetRawQueryValues (u : RawURL) : List (Str × Str) :=
  (splitChar '&' u.Query).foldl
    (fun values pair => if pair = [] then values else values ++ [parsePair pair]) []

/-- The value list a Go map lookup would return for `key`: the values of
the insertions under that key, in insertion order. -/
def queryLookup (values : List (Str × Str)) (key : Str) : List Str :=
  (values.filter (fun p => p.1 == key)).map (fun p => p.2)

/-- The pre-fragment part of a path-query-fragment region: the text before
the first `#`, or the whole region when there is no `#`. -/
def preHash (r : Str) : Str :=
  match strIndex r ['#'] with
  | some h => r.take h
  | none => r

/-- A sample decomposed URL: the result of parsing "http://a:1/x?q=1#f"
(scheme http, host a:1, hostname a, port 1, path /x, query q=1,
fragment f, raw request URI /x?q=1#f). -/
def sampleURL : RawURL :=
  (RawURLParseWithOptions (("http://a:1/x?q=1#f").toList) none).toOption.getD emptyRawURL

/-! ### Lemmas about the index searches -/

theorem strIndex_recon (s : Str) :
    ∀ (sub : Str) (i : Nat), strIndex s sub = some i →
      s.take i ++ sub ++ s.drop (i + sub.length) = s := by
  induction s with
  | nil =>
    intro sub i h
    simp only [strIndex] at h
    split at h
    · rename_i hsub
      injection h with h
      subst hsub
      simp [← h]
    · exact absurd h (by simp)
  | cons c rest ih =>
    intro sub i h
    simp only [strIndex] at h
    split at h
    · rename_i hpre
      injection h with h
      subst h
      obtain ⟨t, ht⟩ := List.isPrefixOf_iff_prefix.mp hpre
      simp only [List.take_zero, List.nil_append, Nat.zero_add]
      rw [← ht, List.drop_left]
    · rename_i hpre
      obtain ⟨j, hj, hji⟩ := Option.map_eq_some'.mp h
      subst hji
      have hidx : j + 1 + sub.length = (j + sub.length) + 1 := by omega
      rw [hidx, List.take_succ_cons, List.drop_succ_cons, List.cons_append,
          List.cons_append]
      exact congrArg (c :: ·) (ih sub j hj)

theorem strIndex_bound (s : Str) :
    ∀ (sub : Str) (i : Nat), strIndex s sub = some i →
      i + sub.length ≤ s.length := by
  induction s with
  | nil =>
    intro sub i h
    simp only [strIndex] at h
    split at h
    · rename_i hsub
      injection h with h
      subst hsub
      simp [← h]
    · exact absurd h (by simp)
  | cons c rest ih =>
    intro sub i h
    simp only [strIndex] at h
    split at h
    · rename_i hpre
      injection h with h
      subst h
      simpa using (List.isPrefixOf_iff_prefix.mp hpre).length_le
    · obtain ⟨j, hj, hji⟩ := Option.map_eq_some'.mp h
      subst hji
      have := ih sub j hj
      simp only [List.length_cons]
      omega

theorem strIndex_some_ne_nil {s sub : Str} {i : Nat}
    (h : strIndex s sub = some i) (hsub : sub ≠ []) : s ≠ [] := by
  intro hs
  subst hs
  simp [strIndex, hsub] at h

/-! ### Inversion and reconstruction lemmas for the parser stages -/

theorem parseAfterScheme_ok_iff (o s r : Str) (u : RawURL) :
    parseAfterScheme o s r = .ok u ↔
      ∃ host, hostOf (parseUserinfo (splitAuthorityPath r).1).2 = .ok host ∧
        u = { Original := o
              Scheme := s
              Opaque := []
              User := (parseUserinfo (splitAuthorityPath r).1).1
              Host := host
              Hostname := (splitHostnamePort host).1
              Port := (splitHostnamePort host).2
              Path := (extractPQF (splitAuthorityPath r).2).1
              Query := (extractPQF (splitAuthorityPath r).2).2.1
              Fragment := (extractPQF (splitAuthorityPath r).2).2.2
              RawRequestURI := buildRawRequestURI
                (extractPQF (splitAuthorityPath r).2).1
                (extractPQF (splitAuthorityPath r).2).2.1
                (extractPQF (splitAuthorityPath r).2).2.2 } := by
  unfold parseAfterScheme
  cases hh : hostOf (parseUserinfo (splitAuthorityPath r).1).2 with
  | error e => simp [hh]
  | ok host => simp [hh, eq_comm]

/-- Every successful result of the hierarchical stage carries the scheme it
was given, an empty Opaque, and Hostname/Port fields derived from Host. -/
theorem parseAfterScheme_ok_shape {o s r : Str} {u : RawURL}
    (h : parseAfterScheme o s r = .ok u) :
    u.Scheme = s ∧ u.Opaque = [] ∧
      (u.Hostname, u.Port) = splitHostnamePort u.Host := by
  obtain ⟨host, _, hu⟩ := (parseAfterScheme_ok_iff o s r u).mp h
  subst hu
  exact ⟨rfl, rfl, rfl⟩

/-- Userinfo reconstruction: re-assembling the userinfo (with `@`) in front
of the host part gives back the authority substring. -/
theorem parseUserinfo_recon (a0 : Str) :
    (match (parseUserinfo a0).1 with
     | some ui =>
         ui.username ++ (if ui.passwordSet then ':' :: ui.password else []) ++ ['@']
     | none => []) ++ (parseUserinfo a0).2 = a0 := by
  cases hat : strIndex a0 ['@'] with
  | none => simp [parseUserinfo, hat]
  | some atIndex =>
    have hA := strIndex_recon a0 ['@'] atIndex hat
    simp only [List.length_cons, List.length_nil] at hA
    cases hc : strIndex (a0.take atIndex) [':'] with
    | none =>
      simp only [parseUserinfo, hat, hc]
      conv_rhs => rw [← hA]
      simp
    | some ci =>
      have hC := strIndex_recon (a0.take atIndex) [':'] ci hc
      simp only [List.length_cons, List.length_nil] at hC
      simp only [parseUserinfo, hat, hc]
      conv_rhs => rw [← hA, ← hC]
      simp

/-- GetAuthority applied to a record whose User/Host fields come from the
userinfo split of an authority substring gives back that substring. -/
theorem GetAuthority_recon (a0 : Str) (u : RawURL)
    (hU : u.User = (parseUserinfo a0).1) (hH : u.Host = (parseUserinfo a0).2) :
    GetAuthority u = a0 := by
  unfold GetAuthority
  rw [hU, hH]
  cases hat : strIndex a0 ['@'] with
  | none => simp [parseUserinfo, hat]
  | some atIndex =>
    have hA := strIndex_recon a0 ['@'] atIndex hat
    simp only [List.length_cons, List.length_nil] at hA
    cases hc : strIndex (a0.take atIndex) [':'] with
    | none =>
      simp only [parseUserinfo, hat, hc]
      conv_rhs => rw [← hA]
      simp
    | some ci =>
      have hC := strIndex_recon (a0.take atIndex) [':'] ci hc
      simp only [List.length_cons, List.length_nil] at hC
      simp only [parseUserinfo, hat, hc]
      conv_rhs => rw [← hA, ← hC]
      simp

/-- The three components produced by the path/query/fragment extraction on
a non-empty region, in terms of the first `#` and the first `?` before it. -/
theorem extractPQF_of_ne_nil (r : Str) (hr : r ≠ []) :
    extractPQF r =
      ((match strIndex (preHash r) ['?'] with
        | some q => (preHash r).take q
        | none => preHash r),
       (match strIndex (preHash r) ['?'] with
        | some q => (preHash r).drop (q + 1)
        | none => []),
       (match strIndex r ['#'] with
        | some h => r.drop (h + 1)
        | none => [])) := by
  have hlen : r.length > 0 := List.length_pos.mpr hr
  cases hh : strIndex r ['#'] with
  | some h =>
    cases hq : strIndex (r.take h) ['?'] with
    | some q => simp [extractPQF, preHash, hh, hq, hlen]
    | none => simp [extractPQF, preHash, hh, hq, hlen]
  | none =>
    cases hq : strIndex r ['?'] with
    | some q => simp [extractPQF, preHash, hh, hq, hlen]
    | none => simp [extractPQF, preHash, hh, hq, hlen]

/-- Re-assembling path, `?query` and `#fragment` gives back the region,
provided a present `#` has a non-empty fragment behind it and a present
`?` (before any `#`) has a non-empty query behind it. -/
theorem extractPQF_recon (r : Str) (hr : r ≠ [])
    (hfrag : ∀ h, strIndex r ['#'] = some h → h + 1 < r.length)
    (hquery : ∀ q, strIndex (preHash r) ['?'] = some q →
      q + 1 < (preHash r).length) :
    buildRawRequestURI (extractPQF r).1 (extractPQF r).2.1 (extractPQF r).2.2
      = r := by
  rw [extractPQF_of_ne_nil r hr]
  cases hh : strIndex r ['#'] with
  | some h =>
    have hB := strIndex_recon r ['#'] h hh
    simp only [List.length_cons, List.length_nil] at hB
    have hph : preHash r = r.take h := by simp [preHash, hh]
    have hfne : r.drop (h + 1) ≠ [] := by
      have := hfrag h hh
      simp only [ne_eq, List.drop_eq_nil_iff]
      omega
    cases hq : strIndex (preHash r) ['?'] with
    | some q =>
      have hC := strIndex_recon (preHash r) ['?'] q hq
      simp only [List.length_cons, List.length_nil] at hC
      have hqne : (preHash r).drop (q + 1) ≠ [] := by
        have := hquery q hq
        simp only [ne_eq, List.drop_eq_nil_iff]
        omega
      simp only [buildRawRequestURI, if_neg hqne, if_neg hfne]
      conv_rhs => rw [← hB, ← hph, ← hC]
      simp
    | none =>
      simp only [buildRawRequestURI, if_neg hfne, if_pos rfl]
      conv_rhs => rw [← hB, ← hph]
      simp
  | none =>
    have hph : preHash r = r := by simp [preHash, hh]
    cases hq : strIndex (preHash r) ['?'] with
    | some q =>
      have hC := strIndex_recon (preHash r) ['?'] q hq
      simp only [List.length_cons, List.length_nil] at hC
      have hqne : (preHash r).drop (q + 1) ≠ [] := by
        have := hquery q hq
        simp only [ne_eq, List.drop_eq_nil_iff]
        omega
      simp only [buildRawRequestURI, if_neg hqne, if_pos rfl]
      conv_rhs => rw [← hph, ← hC]
      simp
    | none =>
      simp [buildRawRequestURI, hph]

/-- The fold that builds the query-value list, with empty pieces skipped,
equals filtering the empty pieces out and parsing the rest. -/
theorem foldl_skip_empty (l : List Str) (acc : List (Str × Str)) :
    l.foldl (fun values pair =>
        if pair = [] then values else values ++ [parsePair pair]) acc
      = acc ++ (l.filter (fun p => !p.isEmpty)).map parsePair := by
  induction l generalizing acc with
  | nil => simp
  | cons pr rest ih =>
    by_cases hp : pr = []
    · subst hp
      simp [ih]
    · have hne : pr.isEmpty = false := by
        cases pr with
        | nil => exact absurd rfl hp
        | cons a l => rfl
      simp [hp, hne, ih]

/-! ### The claims -/

/-- C2 (corrected from: "decomposition stores path == \"\" when the
path-prefix search fails"): on `"https://example.com#"` the `/`-search
fails, the `#` stays inside the Host field, and the stored Path is `"/"`,
not the empty string. -/
theorem C2_counterexample :
    (RawURLParseWithOptions (("https://example.com#").toList) none).toOption.map
        (fun u => (u.Path, u.Host))
      = some ((("/").toList), (("example.com#").toList)) ∧
    (("/").toList : Str) ≠ [] := by
  constructor
  · decide
  · decide

/-- C2 amended: when the search for a path-starting `/` fails, the
decomposition itself stores path == "/" (the parser, not only GetRawPath,
substitutes the slash); GetRawPath substitutes "/" exactly when the stored
path is empty. -/
theorem C2_empty_path_amended :
    (∀ (original scheme remaining : Str) (u : RawURL),
      strIndex remaining ['/'] = none →
      parseAfterScheme original scheme remaining = .ok u →
      u.Path = ['/']) ∧
    (∀ u : RawURL, u.Path = [] → GetRawPath u = ['/']) := by
  constructor
  · intro original scheme remaining u hns h
    obtain ⟨host, _, hu⟩ :=
      (parseAfterScheme_ok_iff original scheme remaining u).mp h
    subst hu
    simp only [splitAuthorityPath, hns]
    decide
  · intro u h
    simp [GetRawPath, h]

/-- C2 witness: the amended statement at the concrete input
"https://example.com#" (authority "example.com#", no `/` found). -/
theorem C2_witness :
    ((parseAfterScheme (("https://example.com#").toList) (("https").toList)
        (("example.com#").toList)).toOption.getD emptyRawURL).Path = ['/'] ∧
    GetRawPath { emptyRawURL with Path := [] } = ['/'] :=
  ⟨C2_empty_path_amended.1 (("https://example.com#").toList) (("https").toList)
      (("example.com#").toList) _ (by decide) (by decide),
   C2_empty_path_amended.2 _ (by decide)⟩

/-- C3 (corrected from: "Hostname == \"2001:db8::1\""): the parser's
hostname split preserves the IPv6 brackets ("Preserve brackets" branch of
url.go), so the Hostname field is "[2001:db8::1]", not "2001:db8::1". -/
theorem C3_counterexample :
    (RawURLParseWithOptions (("http://[2001:db8::1]:8443/x").toList) none).toOption.map
        RawURL.Hostname
      = some (("[2001:db8::1]").toList) ∧
    (("[2001:db8::1]").toList : Str) ≠ (("2001:db8::1").toList) := by
  constructor
  · decide
  · decide

/-- C3 amended: decomposing "http://[2001:db8::1]:8443/x" yields
Host == "[2001:db8::1]:8443", Port == "8443" and
Hostname == "[2001:db8::1]" — the port-bearing host keeps the brackets and
so does the hostname field; the bracket-stripping SplitHostPort helper
(which would give "2001:db8::1") is only applied to non-bracketed hosts. -/
theorem C3_ipv6_brackets_amended :
    (RawURLParseWithOptions (("http://[2001:db8::1]:8443/x").toList) none).toOption.map
        (fun u => (u.Host, u.Hostname, u.Port))
      = some ((("[2001:db8::1]:8443").toList),
              (("[2001:db8::1]").toList),
              (("8443").toList)) ∧
    SplitHostPort (("[2001:db8::1]:8443").toList)
      = ((("2001:db8::1").toList), (("8443").toList)) := by
  constructor
  · decide
  · decide

/-- C5 confirmed: the fragment is split off (at the first `#`) before the
query is, so everything after the first `#` is the fragment — in
particular for "https://example.com/a?b=1#c?d=2" the query is "b=1" and
the fragment is "c?d=2" even though the fragment contains a `?`. -/
theorem C5_fragment_before_query :
    (∀ (r : Str) (h : Nat),
      strIndex r ['#'] = some h →
      (∀ q, strIndex r ['?'] = some q → h < q) →
      (extractPQF r).2.2 = r.drop (h + 1)) ∧
    ((RawURLParseWithOptions (("https://example.com/a?b=1#c?d=2").toList) none).toOption.map
        (fun u => (u.Query, u.Fragment))
      = some ((("b=1").toList), (("c?d=2").toList))) := by
  constructor
  · intro r h hh _
    have hr : r ≠ [] := strIndex_some_ne_nil hh (by simp)
    rw [extractPQF_of_ne_nil r hr]
    simp [hh]
  · decide

/-- C5 witness: the first conjunct at the region "/a#x?y", whose first `#`
(index 2) precedes its only `?` (index 4). -/
theorem C5_witness :
    (extractPQF (("/a#x?y").toList)).2.2 = (("x?y").toList) :=
  C5_fragment_before_query.1 (("/a#x?y").toList) 2 (by decide)
    (fun q hq => by
      rw [show strIndex (("/a#x?y").toList) ['?'] = some 4 from by decide] at hq
      injection hq with hq
      omega)

/-- C10 confirmed: GetRawQueryValues skips empty pairs — an empty query,
leading/trailing `&`, or `&&` contribute no entry (never an entry under
the empty key); only non-empty `key=value` or bare-key pairs contribute,
with per-key value order preserved. -/
theorem C10_query_values :
    (∀ u : RawURL,
      GetRawQueryValues u
        = ((splitChar '&' u.Query).filter (fun p => !p.isEmpty)).map parsePair) ∧
    GetRawQueryValues { emptyRawURL with Query := [] } = [] ∧
    GetRawQueryValues { emptyRawURL with Query := ("&&&").toList } = [] ∧
    GetRawQueryValues { emptyRawURL with Query := ("&&a=1&").toList }
      = [((("a").toList), (("1").toList))] ∧
    queryLookup (GetRawQueryValues { emptyRawURL with Query := ("a=1&&a=2&b&").toList })
        (("a").toList)
      = [(("1").toList), (("2").toList)] ∧
    queryLookup (GetRawQueryValues { emptyRawURL with Query := ("a=1&&a=2&b&").toList })
        (("b").toList)
      = [([] : Str)] ∧
    queryLookup (GetRawQueryValues { emptyRawURL with Query := ("&&&").toList }) []
      = [] := by
  refine ⟨?_, by decide, by decide, by decide, by decide, by decide, by decide⟩
  intro u
  unfold GetRawQueryValues
  rw [foldl_skip_empty]
  simp

/-- C4 confirmed: an input without "://" whose prefix before the first `:`
contains neither `/` nor `.` parses to the opaque form — Scheme is the
prefix, Opaque is the rest, every hierarchical field is at its zero value;
and in every successful parse a non-empty Opaque forces all hierarchical
fields to be empty. -/
theorem C4_opaque_exclusive :
    (∀ (input : Str) (opts : Option ParseOptions) (ci : Nat),
      strIndex input schemeSep = none →
      strIndex input [':'] = some ci →
      strContains (input.take ci) ['/'] = false →
      strContains (input.take ci) ['.'] = false →
      RawURLParseWithOptions input opts =
        .ok { emptyRawURL with
              Original := input
              Scheme := input.take ci
              Opaque := input.drop (ci + 1) }) ∧
    (∀ (input : Str) (opts : Option ParseOptions) (u : RawURL),
      RawURLParseWithOptions input opts = .ok u → u.Opaque ≠ [] →
      u.User = none ∧ u.Host = [] ∧ u.Hostname = [] ∧ u.Port = [] ∧
      u.Path = [] ∧ u.Query = [] ∧ u.Fragment = []) := by
  constructor
  · intro input opts ci hsep hci h1 h2
    have hne : input ≠ [] := strIndex_some_ne_nil hci (by simp)
    unfold RawURLParseWithOptions
    rw [if_neg (by simpa [List.length_eq_zero] using hne)]
    simp only [hsep, hci]
    rw [if_pos ⟨h1, h2⟩]
  · intro input opts u h hO
    by_cases hlen : input.length = 0
    · unfold RawURLParseWithOptions at h
      rw [if_pos hlen] at h
      exact absurd h (by simp)
    · unfold RawURLParseWithOptions at h
      rw [if_neg hlen] at h
      cases hsep : strIndex input schemeSep with
      | some k =>
        simp only [hsep] at h
        exact absurd (parseAfterScheme_ok_shape h).2.1 hO
      | none =>
        simp only [hsep] at h
        cases hci : strIndex input [':'] with
        | some ci =>
          simp only [hci] at h
          by_cases hh : strContains (input.take ci) ['/'] = false ∧
              strContains (input.take ci) ['.'] = false
          · rw [if_pos hh] at h
            injection h with h
            subst h
            exact ⟨rfl, rfl, rfl, rfl, rfl, rfl, rfl⟩
          · rw [if_neg hh] at h
            exact absurd (parseAfterScheme_ok_shape h).2.1 hO
        | none =>
          simp only [hci] at h
          exact absurd (parseAfterScheme_ok_shape h).2.1 hO

/-- C4 witness: "mailto:user@example.com" (first `:` at 6, "mailto" has no
`/` or `.`) parses to the opaque form with empty hierarchical fields. -/
theorem C4_witness :
    RawURLParseWithOptions (("mailto:user@example.com").toList) none =
      .ok { emptyRawURL with
            Original := ("mailto:user@example.com").toList
            Scheme := ("mailto").toList
            Opaque := ("user@example.com").toList } ∧
    ({ emptyRawURL with
       Original := ("mailto:user@example.com").toList
       Scheme := ("mailto").toList
       Opaque := ("user@example.com").toList } : RawURL).User = none :=
  ⟨C4_opaque_exclusive.1 (("mailto:user@example.com").toList) none 6
      (by decide) (by decide) (by decide) (by decide),
   (C4_opaque_exclusive.2 (("mailto:user@example.com").toList) none _
      (by decide) (by decide)).1⟩

/-- C6 (corrected from: "fails with MissingSchemeError"): parsing
"example.com/path" with `RawURLParseStrict` (nil options, so
allowMissingScheme is false) succeeds — the code has no missing-scheme
error at all; the result simply carries an empty Scheme. -/
theorem C6_counterexample :
    RawURLParseStrict (("example.com/path").toList) =
      .ok { emptyRawURL with
            Original := ("example.com/path").toList
            Host := ("example.com").toList
            Hostname := ("example.com").toList
            Path := ("/path").toList
            RawRequestURI := ("/path").toList } := by
  decide

/-- C6 amended: when no scheme delimiter is found and the opaque heuristic
does not apply, strict parsing (no fallback) does not fail with a
missing-scheme error: it proceeds to the hierarchical stage on the whole
input, and any successful result has an empty Scheme. -/
theorem C6_missing_scheme_amended :
    ∀ (input : Str), input ≠ [] →
      strIndex input schemeSep = none →
      (∀ ci, strIndex input [':'] = some ci →
        ¬(strContains (input.take ci) ['/'] = false ∧
          strContains (input.take ci) ['.'] = false)) →
      RawURLParseStrict input = parseAfterScheme input [] input ∧
      (∀ u, RawURLParseStrict input = .ok u → u.Scheme = []) := by
  intro input hne hsep hheur
  have hstrict : RawURLParseStrict input = parseAfterScheme input [] input := by
    unfold RawURLParseStrict RawURLParseWithOptions
    rw [if_neg (by simpa [List.length_eq_zero] using hne)]
    simp only [hsep]
    cases hci : strIndex input [':'] with
    | some ci =>
      simp only [hci]
      rw [if_neg (hheur ci hci)]
      simp [missingScheme]
    | none =>
      simp [missingScheme]
  refine ⟨hstrict, fun u hu => ?_⟩
  rw [hstrict] at hu
  exact (parseAfterScheme_ok_shape hu).1

/-- C6 witness: the amended statement at "example.com/path" (no ":" at
all, so the heuristic hypothesis holds vacuously). -/
theorem C6_witness :
    RawURLParseStrict (("example.com/path").toList)
      = parseAfterScheme (("example.com/path").toList) []
          (("example.com/path").toList) ∧
    ((RawURLParseStrict (("example.com/path").toList)).toOption.getD
        emptyRawURL).Scheme = [] :=
  ⟨(C6_missing_scheme_amended (("example.com/path").toList) (by decide) (by decide)
      (fun ci hci => by
        rw [show strIndex (("example.com/path").toList) [':'] = none from by decide] at hci
        exact absurd hci (by simp))).1,
   (C6_missing_scheme_amended (("example.com/path").toList) (by decide) (by decide)
      (fun ci hci => by
        rw [show strIndex (("example.com/path").toList) [':'] = none from by decide] at hci
        exact absurd hci (by simp))).2 _ (by decide)⟩

/-- C7 (corrected from: "an unrecognized component tag fails with
InvalidComponentError"): the Go `UpdateRawURL` has no error return and no
`default` case — calling it with the unknown tag 99 returns normally and
leaves the URL unchanged; no `InvalidComponentError` exists in the code. -/
theorem C7_counterexample :
    UpdateRawURL sampleURL 99 (("x").toList) = sampleURL := by
  decide

/-- C7 amended: a component tag beyond the known constants (0..8 =
Scheme..RawURI) makes `UpdateRawURL` a silent no-op: no field is modified
and no error is reported (the function has no error return). -/
theorem C7_unknown_component_amended :
    ∀ (u : RawURL) (c : URLComponent) (v : Str),
      URLComponent.RawURI < c → UpdateRawURL u c v = u := by
  intro u c v h
  have h8 : (8 : Nat) < c := h
  have e : ∀ n : Nat, n ≤ 8 → ¬(c = n) := by
    intro n hn hc
    subst hc
    omega
  unfold UpdateRawURL
  rw [if_neg (e URLComponent.Scheme (by decide)),
      if_neg (e URLComponent.Username (by decide)),
      if_neg (e URLComponent.Password (by decide)),
      if_neg (e URLComponent.Host (by decide)),
      if_neg (e URLComponent.Port (by decide)),
      if_neg (e URLComponent.Path (by decide)),
      if_neg (e URLComponent.Query (by decide)),
      if_neg (e URLComponent.Fragment (by decide)),
      if_neg (e URLComponent.RawURI (by decide))]

/-- C7 witness: the amended no-op statement at tag 42. -/
theorem C7_witness :
    UpdateRawURL sampleURL 42 (("y").toList) = sampleURL :=
  C7_unknown_component_amended sampleURL 42 (("y").toList) (by decide)

/-- C8 (corrected from: "every component mutation clears rawRequestURI"):
after explicitly setting the rawRequestURI override to "/evil", a Scheme
mutation leaves the override in place — only path/query/fragment updates
clear it. -/
theorem C8_counterexample :
    (UpdateRawURL
        (UpdateRawURL sampleURL URLComponent.RawURI (("/evil").toList))
        URLComponent.Scheme (("ftp").toList)).RawRequestURI
      = ("/evil").toList ∧
    (("/evil").toList : Str) ≠ [] := by
  constructor
  · decide
  · decide

/-- C8 amended: exactly the path, query and fragment mutations clear the
rawRequestURI override; the rawRequestURI mutation sets it; scheme,
username, password, host and port mutations leave it untouched. -/
theorem C8_invalidate_amended :
    ∀ (u : RawURL) (v : Str),
      (UpdateRawURL u URLComponent.Path v).RawRequestURI = [] ∧
      (UpdateRawURL u URLComponent.Query v).RawRequestURI = [] ∧
      (UpdateRawURL u URLComponent.Fragment v).RawRequestURI = [] ∧
      (UpdateRawURL u URLComponent.RawURI v).RawRequestURI = v ∧
      (UpdateRawURL u URLComponent.Scheme v).RawRequestURI = u.RawRequestURI ∧
      (UpdateRawURL u URLComponent.Username v).RawRequestURI = u.RawRequestURI ∧
      (UpdateRawURL u URLComponent.Password v).RawRequestURI = u.RawRequestURI ∧
      (UpdateRawURL u URLComponent.Host v).RawRequestURI = u.RawRequestURI ∧
      (UpdateRawURL u URLComponent.Port v).RawRequestURI = u.RawRequestURI := by
  intro u v
  obtain ⟨o, s, op, us, ho, hn, po, pa, q, f, rr⟩ := u
  refine ⟨rfl, rfl, rfl, rfl, rfl, ?_, ?_, ?_, ?_⟩
  · cases us <;> rfl
  · cases us <;> rfl
  · by_cases hP : GetPort (RawURL.mk o s op us ho hn po pa q f rr) = []
    · show (if _ = [] then _ else _ : RawURL).RawRequestURI = rr
      rw [if_pos hP]
    · show (if _ = [] then _ else _ : RawURL).RawRequestURI = rr
      rw [if_neg hP]
  · by_cases hv : v = []
    · show (if _ = [] then _ else _ : RawURL).RawRequestURI = rr
      rw [if_pos hv]
    · show (if _ = [] then _ else _ : RawURL).RawRequestURI = rr
      rw [if_neg hv]

/-- C9 (corrected from: "after every Mutator update of host or port the
hostname and port fields remain a consistent split of the host field"):
updating the host of the parse of "http://a:1/x?q=1#f" to "b" produces
Host "b:1" but leaves the Hostname field at the stale value "a", which is
not the hostname component of the new host. -/
theorem C9_counterexample :
    (UpdateRawURL sampleURL URLComponent.Host (("b").toList)).Host
      = ("b:1").toList ∧
    (UpdateRawURL sampleURL URLComponent.Host (("b").toList)).Hostname
      = ("a").toList ∧
    (splitHostnamePort (("b:1").toList)).1 = ("b").toList ∧
    (("a").toList : Str) ≠ ("b").toList := by
  refine ⟨by decide, by decide, by decide, by decide⟩

/-- C9 amended: after initial decomposition the Hostname/Port fields are
the host/port split of Host; the Mutator's host update re-appends the
previously-split port and its port update preserves the hostname, but both
rewrite only the Host field — the Hostname and Port fields are not
re-derived and may go stale. -/
theorem C9_host_port_amended :
    (∀ (input : Str) (opts : Option ParseOptions) (u : RawURL),
      RawURLParseWithOptions input opts = .ok u →
      (u.Hostname, u.Port) = splitHostnamePort u.Host) ∧
    (∀ (u : RawURL) (v : Str),
      (UpdateRawURL u URLComponent.Host v).Hostname = u.Hostname ∧
      (UpdateRawURL u URLComponent.Host v).Port = u.Port ∧
      (UpdateRawURL u URLComponent.Host v).Host =
        (if GetPort u = [] then v else v ++ ':' :: GetPort u) ∧
      (UpdateRawURL u URLComponent.Port v).Hostname = u.Hostname ∧
      (UpdateRawURL u URLComponent.Port v).Port = u.Port ∧
      (UpdateRawURL u URLComponent.Port v).Host =
        (if v = [] then GetHostname u else GetHostname u ++ ':' :: v)) := by
  constructor
  · intro input opts u h
    by_cases hlen : input.length = 0
    · unfold RawURLParseWithOptions at h
      rw [if_pos hlen] at h
      exact absurd h (by simp)
    · unfold RawURLParseWithOptions at h
      rw [if_neg hlen] at h
      cases hsep : strIndex input schemeSep with
      | some k =>
        simp only [hsep] at h
        exact (parseAfterScheme_ok_shape h).2.2
      | none =>
        simp only [hsep] at h
        cases hci : strIndex input [':'] with
        | some ci =>
          simp only [hci] at h
          by_cases hh : strContains (input.take ci) ['/'] = false ∧
              strContains (input.take ci) ['.'] = false
          · rw [if_pos hh] at h
            injection h with h
            subst h
            rfl
          · rw [if_neg hh] at h
            exact (parseAfterScheme_ok_shape h).2.2
        | none =>
          simp only [hci] at h
          exact (parseAfterScheme_ok_shape h).2.2
  · intro u v
    obtain ⟨o, s, op, us, ho, hn, po, pa, q, f, rr⟩ := u
    refine ⟨?_, ?_, ?_, ?_, ?_, ?_⟩ <;>
      · by_cases hc : GetPort (RawURL.mk o s op us ho hn po pa q f rr) = [] <;>
        by_cases hv : v = [] <;>
        simp [UpdateRawURL, URLComponent.Scheme, URLComponent.Username,
          URLComponent.Password, URLComponent.Host, URLComponent.Port,
          URLComponent.Path, URLComponent.Query, URLComponent.Fragment,
          URLComponent.RawURI, hc, hv]

/-- C9 witness: the decomposition part at "http://a:1/x?q=1#f" — the
parsed sample URL's Hostname/Port fields are the split of its Host. -/
theorem C9_witness :
    (sampleURL.Hostname, sampleURL.Port) = splitHostnamePort sampleURL.Host :=
  C9_host_port_amended.1 (("http://a:1/x?q=1#f").toList) none sampleURL (by decide)

/-- C1 (corrected): "http://h/x?" is accepted with no fallback scheme (the
"://" delimiter is present), has no IPv6/port ambiguity, and parses with
the non-empty path "/x" — yet String() drops the trailing "?" because its
query is empty, so the reconstruction is not byte-for-byte the input. -/
theorem C1_counterexample :
    (RawURLParseWithOptions (("http://h/x?").toList) none).toOption.map
        RawURL.String
      = some (("http://h/x").toList) ∧
    (("http://h/x").toList : Str) ≠ (("http://h/x?").toList) := by
  constructor
  · decide
  · decide

/-- C1 amended: round-trip holds when additionally the scheme before "://"
is non-empty, the post-scheme remainder contains a `/` (so the parser does
not force the "/" path), the bracket-handling keeps the authority's host
part intact (no IPv6/port ambiguity), a `#`, when present, is followed by
at least one character, and a `?` before any `#` is likewise followed by
at least one character. -/
theorem C1_roundtrip_amended (input : Str) (opts : Option ParseOptions) (k p : Nat)
    (hsep : strIndex input schemeSep = some k)
    (hk : 0 < k)
    (hpath : strIndex (input.drop (k + 3)) ['/'] = some p)
    (hhost : hostOf (hostPartOf ((input.drop (k + 3)).take p)) =
             .ok (hostPartOf ((input.drop (k + 3)).take p)))
    (hfrag : ∀ h, strIndex ((input.drop (k + 3)).drop p) ['#'] = some h →
             h + 1 < ((input.drop (k + 3)).drop p).length)
    (hquery : ∀ q, strIndex (preHash ((input.drop (k + 3)).drop p)) ['?'] = some q →
             q + 1 < (preHash ((input.drop (k + 3)).drop p)).length) :
    ∃ u, RawURLParseWithOptions input opts = .ok u ∧ RawURL.String u = input := by
  have hne : input ≠ [] := strIndex_some_ne_nil hsep (by simp [schemeSep])
  have hkle : k + 3 ≤ input.length := by
    simpa [schemeSep] using strIndex_bound input schemeSep k hsep
  set r := input.drop (k + 3) with hrdef
  have hsplit : splitAuthorityPath r = (r.take p, r.drop p) := by
    simp [splitAuthorityPath, hpath]
  have hparse : RawURLParseWithOptions input opts
      = parseAfterScheme input (input.take k) r := by
    unfold RawURLParseWithOptions
    rw [if_neg (by simpa [List.length_eq_zero] using hne)]
    simp only [hsep]
  have hok : parseAfterScheme input (input.take k) r = .ok
      { Original := input
        Scheme := input.take k
        Opaque := []
        User := (parseUserinfo (r.take p)).1
        Host := (parseUserinfo (r.take p)).2
        Hostname := (splitHostnamePort ((parseUserinfo (r.take p)).2)).1
        Port := (splitHostnamePort ((parseUserinfo (r.take p)).2)).2
        Path := (extractPQF (r.drop p)).1
        Query := (extractPQF (r.drop p)).2.1
        Fragment := (extractPQF (r.drop p)).2.2
        RawRequestURI := buildRawRequestURI (extractPQF (r.drop p)).1
          (extractPQF (r.drop p)).2.1 (extractPQF (r.drop p)).2.2 } := by
    apply (parseAfterScheme_ok_iff _ _ _ _).mpr
    refine ⟨(parseUserinfo (r.take p)).2, ?_, ?_⟩
    · rw [hsplit]
      exact hhost
    · rw [hsplit]
  refine ⟨_, by rw [hparse]; exact hok, ?_⟩
  have hsne : input.take k ≠ [] := by
    intro hnil
    have hlen := congrArg List.length hnil
    rw [List.length_take] at hlen
    simp only [List.length_nil] at hlen
    rcases Nat.min_eq_zero_iff.mp hlen with h0 | h0 <;> omega
  have hdne : r.drop p ≠ [] := by
    have hb := strIndex_bound r ['/'] p hpath
    simp only [List.length_cons, List.length_nil] at hb
    simp only [ne_eq, List.drop_eq_nil_iff]
    omega
  have hPQF := extractPQF_recon (r.drop p) hdne hfrag hquery
  have hS := strIndex_recon input schemeSep k hsep
  have hS3 : input.take k ++ schemeSep ++ r = input := by
    rw [hrdef]
    simpa [schemeSep] using hS
  unfold RawURL.String
  dsimp only
  rw [if_neg hsne]
  rw [GetAuthority_recon (r.take p) _ rfl rfl]
  conv_rhs => rw [← hS3, ← List.take_append_drop p r, ← hPQF]
  simp [buildRawRequestURI, List.append_assoc]

/-- C1 witness: the amended round trip at "http://u:p@h/a?q=1#f"
(scheme "http" at index 4, path start at index 5 of the remainder,
non-empty query and fragment). -/
theorem C1_witness :
    ∃ u, RawURLParseWithOptions (("http://u:p@h/a?q=1#f").toList) none = .ok u ∧
      RawURL.String u = ("http://u:p@h/a?q=1#f").toList :=
  C1_roundtrip_amended (("http://u:p@h/a?q=1#f").toList) none 4 5
    (by decide) (by decide) (by decide) (by decide)
    (fun h hh => by
      have h6 : strIndex (((("http://u:p@h/a?q=1#f").toList).drop (4 + 3)).drop 5)
          ['#'] = some 6 := by decide
      rw [h6] at hh
      injection hh with hh
      subst hh
      decide)
    (fun q hq => by
      have h2 : strIndex (preHash (((("http://u:p@h/a?q=1#f").toList).drop (4 + 3)).drop 5))
          ['?'] = some 2 := by decide
      rw [h2] at hq
      injection hq with hq
      subst hq
      decide)

end Rawurlparser
